import Mathlib

/- Shallow embedding of the drag-race fantasy-league scoring code: the settings
   helpers, the rank-multiplier resolver, both versions of the recalculateScores
   engine found in the source, and the league-membership join handler.
   JavaScript numbers are modelled as exact rationals (every decimal literal
   appearing in the code is exactly representable as a binary double, so double
   arithmetic on these values agrees with rational arithmetic) with explicit
   constructors for NaN and undefined. -/

namespace DragRace

/-- Exact rationals in normalized form (denominator positive, fraction in
lowest terms), with arithmetic that the kernel can evaluate. All values built
by the operations below are normalized, so structural equality is value
equality. -/
structure Q where
  num : ℤ
  den : ℕ
deriving DecidableEq

/-- Normalize a fraction with positive denominator. -/
def Q.norm (n : ℤ) (d : ℕ) : Q :=
  let g := Nat.gcd n.natAbs d
  ⟨n / (g : ℤ), d / g⟩

/-- Embed a natural number. -/
def Q.ofNat (n : ℕ) : Q := ⟨(n : ℤ), 1⟩

instance : Zero Q := ⟨⟨0, 1⟩⟩

instance (n : ℕ) : OfNat Q n := ⟨⟨(n : ℤ), 1⟩⟩

def Q.add (a b : Q) : Q := Q.norm (a.num * (b.den : ℤ) + b.num * (a.den : ℤ)) (a.den * b.den)

def Q.mul (a b : Q) : Q := Q.norm (a.num * b.num) (a.den * b.den)

def Q.neg (a : Q) : Q := ⟨-a.num, a.den⟩

def Q.inv (a : Q) : Q :=
  if a.num < 0 then ⟨-(a.den : ℤ), a.num.natAbs⟩
  else if a.num = 0 then ⟨0, 1⟩
  else ⟨(a.den : ℤ), a.num.natAbs⟩

def Q.div (a b : Q) : Q := Q.mul a (Q.inv b)

instance : Add Q := ⟨Q.add⟩

instance : Mul Q := ⟨Q.mul⟩

instance : Neg Q := ⟨Q.neg⟩

instance : Div Q := ⟨Q.div⟩

/-- Result of a JavaScript numeric expression: undefined, NaN, or a number. -/
inductive JSVal where
  | undef : JSVal
  | nan : JSVal
  | num : Q → JSVal
deriving DecidableEq

/-- Models the JavaScript idiom `v || d` for a numeric value v used in a numeric
position: undefined, NaN and 0 are falsy and yield the default d. -/
def jsOr (v : JSVal) (d : Q) : Q :=
  match v with
  | JSVal.num q => if q.num = 0 then d else q
  | _ => d

/-- Splits a character list into its longest prefix of decimal digits and the
rest. -/
def spanDigits : List Char → List Char × List Char
  | [] => ([], [])
  | c :: cs =>
    if c.isDigit then
      let p := spanDigits cs
      (c :: p.1, p.2)
    else ([], c :: cs)

/-- Value of a list of decimal digits, most significant first. -/
def digitsVal (ds : List Char) : ℕ :=
  ds.foldl (fun a c => a * 10 + (c.toNat - 48)) 0

/-- Models JavaScript parseFloat on an optional sign followed by digits and an
optional fraction part (the only shapes the settings values take); any other
input yields NaN, and trailing garbage after a valid prefix is ignored, as in
JavaScript. -/
def parseFloatCore (cs : List Char) : JSVal :=
  let sr : Q × List Char :=
    match cs with
    | '-' :: cs' => (-1, cs')
    | '+' :: cs' => (1, cs')
    | cs' => (1, cs')
  let ip := spanDigits sr.2
  let fp : List Char :=
    match ip.2 with
    | '.' :: cs' => (spanDigits cs').1
    | _ => []
  if ip.1.isEmpty ∧ fp.isEmpty then JSVal.nan
  else JSVal.num (sr.1 * (Q.ofNat (digitsVal ip.1) + Q.ofNat (digitsVal fp) / Q.ofNat (10 ^ fp.length)))

/-- JavaScript parseFloat, on strings. -/
def parseFloat (s : String) : JSVal := parseFloatCore s.toList

/-- Models JavaScript parseInt (base 10) on an optional sign followed by digits;
no digits yields NaN. -/
def parseIntCore (cs : List Char) : JSVal :=
  let sr : Q × List Char :=
    match cs with
    | '-' :: cs' => (-1, cs')
    | '+' :: cs' => (1, cs')
    | cs' => (1, cs')
  let ip := spanDigits sr.2
  if ip.1.isEmpty then JSVal.nan else JSVal.num (sr.1 * Q.ofNat (digitsVal ip.1))

/-- JavaScript parseInt, on strings. -/
def parseIntJS (s : String) : JSVal := parseIntCore s.toList

/-- The settings table as the key-to-value mapping getSettings builds from it
(the table's key column is unique, per updateSetting's ON CONFLICT (key)). -/
def lookupSetting (settings : List (String × String)) (k : String) : Option String :=
  (settings.find? (fun p => p.1 = k)).map (fun p => p.2)

/-- Models the JavaScript idiom `v || d` for a string value v that may be
undefined: undefined and the empty string are falsy and yield the default. -/
def strOrDefault (v : Option String) (d : String) : String :=
  match v with
  | some s => if s = "" then d else s
  | none => d

/-- getCurrentEpisode: reads the current_episode setting and parses it, with
the string \x221\x22 as fallback for a missing row or empty value; identical in
both copies of the source file. -/
def getCurrentEpisode (settings : List (String × String)) : JSVal :=
  parseIntJS (strOrDefault (lookupSetting settings ("current_episode")) ("1"))

/-- formatMultipliers as in the first copy of the source (defaults
2.5 / 2.0 / 1.5 / 1.0 for ranks 1-4; any other rank is undefined). -/
def formatMultipliersV1 (settings : List (String × String)) : ℕ → JSVal := fun r =>
  if r = 1 then parseFloat (strOrDefault (lookupSetting settings ("multiplier_rank_1")) ("2.5"))
  else if r = 2 then parseFloat (strOrDefault (lookupSetting settings ("multiplier_rank_2")) ("2.0"))
  else if r = 3 then parseFloat (strOrDefault (lookupSetting settings ("multiplier_rank_3")) ("1.5"))
  else if r = 4 then parseFloat (strOrDefault (lookupSetting settings ("multiplier_rank_4")) ("1.0"))
  else JSVal.undef

/-- formatMultipliers as in the second copy of the source (defaults
2.0 / 1.5 / 1.0 / 0.5 for ranks 1-4; any other rank is undefined). -/
def formatMultipliersV2 (settings : List (String × String)) : ℕ → JSVal := fun r =>
  if r = 1 then parseFloat (strOrDefault (lookupSetting settings ("multiplier_rank_1")) ("2.0"))
  else if r = 2 then parseFloat (strOrDefault (lookupSetting settings ("multiplier_rank_2")) ("1.5"))
  else if r = 3 then parseFloat (strOrDefault (lookupSetting settings ("multiplier_rank_3")) ("1.0"))
  else if r = 4 then parseFloat (strOrDefault (lookupSetting settings ("multiplier_rank_4")) ("0.5"))
  else JSVal.undef

/-- A row of the rosters table. -/
structure RosterRow where
  user : ℕ
  league : ℕ
  queen : String
  rank : ℕ
  episode : ℕ
deriving DecidableEq

/-- A row of the queen_box_scores table (one raw scoring event). -/
structure BoxScoreRow where
  queen : String
  episode : ℕ
  points : Q
deriving DecidableEq

/-- A row of the user_queen_scores table (a persisted per-episode score). -/
structure UQSRow where
  user : ℕ
  league : ℕ
  queen : String
  episode : ℕ
  calculated_points : Q
  rank : ℕ
deriving DecidableEq

/-- A row of the league_standings cache table. -/
structure StandingsRow where
  user : ℕ
  league : ℕ
  total_score : Q
deriving DecidableEq

/-- A row of the league_members table. -/
structure MemberRow where
  league : ℕ
  user : ℕ
deriving DecidableEq

/-- The datastore the engine reads and writes. Tables are modelled as row
lists; SQL row order is unspecified, so the model fixes first-occurrence
order for grouped results. -/
@[ext]
structure Store where
  rosters : List RosterRow
  league_members : List MemberRow
  queen_box_scores : List BoxScoreRow
  user_queen_scores : List UQSRow
  league_standings : List StandingsRow
  settings : List (String × String)
deriving DecidableEq

/-- Conflict key of the first version's upsert into user_queen_scores:
ON CONFLICT (user_id, league_id, queen_name, episode_number). -/
def keyV1 (x : UQSRow) : ℕ × ℕ × String × ℕ := (x.user, x.league, x.queen, x.episode)

/-- Conflict key of the second version's upsert into user_queen_scores:
ON CONFLICT (user_id, rank, episode_number). -/
def keyV2 (x : UQSRow) : ℕ × ℕ × ℕ := (x.user, x.rank, x.episode)

/-- Conflict key of the standings upsert: ON CONFLICT (user_id, league_id). -/
def keyStand (x : StandingsRow) : ℕ × ℕ := (x.user, x.league)

/-- The first version's INSERT ... ON CONFLICT (user_id, league_id, queen_name,
episode_number) DO UPDATE SET calculated_points, rank. -/
def upsertUQS_V1 (l : List UQSRow) (w : UQSRow) : List UQSRow :=
  if l.any (fun x => keyV1 x = keyV1 w) then
    l.map (fun x =>
      if keyV1 x = keyV1 w then
        { x with calculated_points := w.calculated_points, rank := w.rank }
      else x)
  else l ++ [w]

/-- The second version's INSERT ... ON CONFLICT (user_id, rank, episode_number)
DO UPDATE SET queen_name, calculated_points, league_id. -/
def upsertUQS_V2 (l : List UQSRow) (w : UQSRow) : List UQSRow :=
  if l.any (fun x => keyV2 x = keyV2 w) then
    l.map (fun x =>
      if keyV2 x = keyV2 w then
        { x with queen := w.queen, calculated_points := w.calculated_points,
                 league := w.league }
      else x)
  else l ++ [w]

/-- The standings INSERT ... ON CONFLICT (user_id, league_id)
DO UPDATE SET total_score. -/
def upsertStanding (l : List StandingsRow) (w : StandingsRow) : List StandingsRow :=
  if l.any (fun x => keyStand x = keyStand w) then
    l.map (fun x => if keyStand x = keyStand w then { x with total_score := w.total_score } else x)
  else l ++ [w]

/-- SUM(points) over the queen_box_scores rows matching one contestant and one
episode: the per-group SUM of the first version's GROUP BY queen_name query,
and also the spec's formula for aggregated raw points. -/
def sumPointsSpec (boxes : List BoxScoreRow) (ep : ℕ) (q : String) : Q :=
  ((boxes.filter (fun b => b.episode = ep ∧ b.queen = q)).map (fun b => b.points)).sum

/-- The first version's box-score query: SELECT queen_name, SUM(points) FROM
queen_box_scores WHERE episode_number = ep GROUP BY queen_name, as the list of
(queen, sum) pairs in first-occurrence order. -/
def aggRawV1 (boxes : List BoxScoreRow) (ep : ℕ) : List (String × Q) :=
  (((boxes.filter (fun b => b.episode = ep)).map (fun b => b.queen)).dedup).map
    (fun q => (q, (((boxes.filter (fun b => b.episode = ep)).filter
      (fun b => b.queen = q)).map (fun b => b.points)).sum))

/-- The first version's `parseFloat(pointsMap[roster.queen_name] || 0)`:
lookup in the grouped query result, 0 for a contestant absent from it. -/
def rawPointsV1 (boxes : List BoxScoreRow) (ep : ℕ) (q : String) : Q :=
  (((aggRawV1 boxes ep).find? (fun p => p.1 = q)).map (fun p => p.2)).getD 0

/-- The EpisodeScore candidate the first version's loop builds for one roster
row: `points = rawPoints * multiplier` with `mults[roster.rank] || 1.0`. -/
def candV1 (s : Store) (ep : ℕ) (r : RosterRow) : UQSRow :=
  { user := r.user, league := r.league, queen := r.queen, episode := ep,
    calculated_points :=
      rawPointsV1 s.queen_box_scores ep r.queen * jsOr (formatMultipliersV1 s.settings r.rank) 1,
    rank := r.rank }

/-- user_queen_scores after the first version's per-roster upsert loop. -/
def uqsAfterV1 (s : Store) (ep : ℕ) : List UQSRow :=
  (s.rosters.filter (fun r => r.episode = ep)).foldl
    (fun acc r => upsertUQS_V1 acc (candV1 s ep r)) s.user_queen_scores

/-- The distinct (user_id, league_id) pairs of user_queen_scores, in
first-occurrence order: the GROUP BY user_id, league_id groups. -/
def groupPairsUL (uqs : List UQSRow) : List (ℕ × ℕ) :=
  (uqs.map (fun r => (r.user, r.league))).dedup

/-- SUM(calculated_points) over one user's rows for one league, across all
episodes. -/
def sumCalc (uqs : List UQSRow) (u lg : ℕ) : Q :=
  ((uqs.filter (fun r => r.user = u ∧ r.league = lg)).map
    (fun r => r.calculated_points)).sum

/-- The first version's standings refresh: INSERT INTO league_standings
SELECT user_id, league_id, SUM(calculated_points) FROM user_queen_scores
GROUP BY user_id, league_id ON CONFLICT (user_id, league_id) DO UPDATE. -/
def standingsAfterV1 (uqs : List UQSRow) (st : List StandingsRow) : List StandingsRow :=
  (groupPairsUL uqs).foldl
    (fun acc p => upsertStanding acc ⟨p.1, p.2, sumCalc uqs p.1 p.2⟩) st

/-- The first version of recalculateScores (big-engine copy one): per-roster
upsert keyed (user, league, queen, episode), then incremental standings
upsert keyed (user, league). -/
def recalculateScoresV1 (s : Store) (ep : ℕ) : Store :=
  { s with user_queen_scores := uqsAfterV1 s ep,
           league_standings := standingsAfterV1 (uqsAfterV1 s ep) s.league_standings }

/-- One row of the second version's joined query before grouping: a roster row
for the episode, joined to one league_members row of the same user and
left-joined to queen_box_scores on (queen, episode). -/
structure JoinedRow where
  user : ℕ
  league : ℕ
  rank : ℕ
  queen : String
  pts : Q
deriving DecidableEq

/-- The LEFT JOIN contribution of the box scores for one (queen, episode): the
matching points, or a single 0 row when none match. -/
def leftJoinPoints (boxes : List BoxScoreRow) (q : String) (ep : ℕ) : List Q :=
  let m := (boxes.filter (fun b => b.queen = q ∧ b.episode = ep)).map (fun b => b.points)
  if m.isEmpty then [0] else m

/-- A grouped row of the second version's epPoints query. -/
structure EpPointsRow where
  user : ℕ
  league : ℕ
  rank : ℕ
  queen : String
  raw_points : Q
deriving DecidableEq

/-- The second version's epPoints query: rosters JOIN league_members ON
user_id, LEFT JOIN queen_box_scores ON (queen_name, episode_number), WHERE
episode_number = ep, GROUP BY (user_id, lm.league_id, rank, queen_name) with
COALESCE(SUM(points), 0). Groups are listed in first-occurrence order. -/
def epPointsV2 (s : Store) (ep : ℕ) : List EpPointsRow :=
  let joined : List JoinedRow :=
    (s.rosters.filter (fun r => r.episode = ep)).flatMap (fun r =>
      (s.league_members.filter (fun m => m.user = r.user)).flatMap (fun m =>
        (leftJoinPoints s.queen_box_scores r.queen ep).map (fun p =>
          { user := r.user, league := m.league, rank := r.rank, queen := r.queen, pts := p })))
  ((joined.map (fun j => (j.user, j.league, j.rank, j.queen))).dedup).map (fun k =>
    { user := k.1, league := k.2.1, rank := k.2.2.1, queen := k.2.2.2,
      raw_points :=
        ((joined.filter (fun j => (j.user, j.league, j.rank, j.queen) = k)).map
          (fun j => j.pts)).sum })

/-- The candidate row the second version upserts for one epPoints group:
`weighted = raw_points * (multipliers[row.rank] || 1.0)`. -/
def candV2 (ep : ℕ) (m : ℕ → JSVal) (row : EpPointsRow) : UQSRow :=
  { user := row.user, league := row.league, queen := row.queen, episode := ep,
    calculated_points := row.raw_points * jsOr (m row.rank) 1,
    rank := row.rank }

/-- user_queen_scores after the second version's upsert loop. -/
def uqsAfterV2 (s : Store) (ep : ℕ) (m : ℕ → JSVal) : List UQSRow :=
  (epPointsV2 s ep).foldl (fun acc row => upsertUQS_V2 acc (candV2 ep m row))
    s.user_queen_scores

/-- The distinct (league_id, user_id) pairs of user_queen_scores, in
first-occurrence order: the second version's GROUP BY league_id, user_id. -/
def groupPairsLU (uqs : List UQSRow) : List (ℕ × ℕ) :=
  (uqs.map (fun r => (r.league, r.user))).dedup

/-- The second version's standings rebuild INSERT: one row per
(league_id, user_id) group of user_queen_scores with its summed points. -/
def rebuildStandings (uqs : List UQSRow) : List StandingsRow :=
  (groupPairsLU uqs).map (fun p => ⟨p.2, p.1, sumCalc uqs p.2 p.1⟩)

/-- The store right after the second version's upsert loop, before the
standings DELETE. -/
def recalcV2_afterPersist (s : Store) (ep : ℕ) (m : ℕ → JSVal) : Store :=
  { s with user_queen_scores := uqsAfterV2 s ep m }

/-- The store right after the second version's DELETE FROM league_standings
statement, before the repopulating INSERT. -/
def recalcV2_afterDelete (s : Store) (ep : ℕ) (m : ℕ → JSVal) : Store :=
  { s with user_queen_scores := uqsAfterV2 s ep m, league_standings := [] }

/-- The second version of recalculateScores (big-engine copy two): upsert
keyed (user, rank, episode) over the joined epPoints groups, then a standings
rebuild by DELETE of the whole table followed by a grouped INSERT. The
multiplier mapping is this version's parameter. -/
def recalculateScoresV2 (s : Store) (ep : ℕ) (m : ℕ → JSVal) : Store :=
  { s with user_queen_scores := uqsAfterV2 s ep m,
           league_standings := rebuildStandings (uqsAfterV2 s ep m) }

/-- The sequence of states a reader can observe between the second version's
SQL statements: initial, after the per-row upsert loop, after the standings
DELETE, and after the repopulating INSERT. -/
def recalcV2_trace (s : Store) (ep : ℕ) (m : ℕ → JSVal) : List Store :=
  [s, recalcV2_afterPersist s ep m, recalcV2_afterDelete s ep m, recalculateScoresV2 s ep m]

/-- The join-league handler's INSERT INTO league_members ... ON CONFLICT
(league_id, user_id) DO NOTHING (both join handlers in the source do this;
one spells the conflict target, the other relies on the table's unique key). -/
def joinLeague (members : List MemberRow) (leagueId userId : ℕ) : List MemberRow :=
  if members.any (fun m => m.league = leagueId ∧ m.user = userId) then members
  else members ++ [⟨leagueId, userId⟩]

/-- The read path for a standings total: the first matching row's total_score,
COALESCEd to 0 when the pair has no row (as every standings read in the
source does). -/
def standingsTotal (st : List StandingsRow) (u lg : ℕ) : Q :=
  (((st.find? (fun x => x.user = u ∧ x.league = lg)).map (fun x => x.total_score)).getD 0)

section UpsertTheory

variable {α κ : Type} [DecidableEq κ]

/-- Generic SQL upsert on a row list: if some row matches the conflict key,
update every matching row, else append. For the three upserts in the source
the updated columns are exactly the non-key columns, so updating a matching
row replaces it by the incoming row wholesale. -/
def upsertBy (key : α → κ) (l : List α) (w : α) : List α :=
  if l.any (fun x => key x = key w) then
    l.map (fun x => if key x = key w then w else x)
  else l ++ [w]

/-- A sequence of upserts. -/
def foldUpserts (key : α → κ) (l ws : List α) : List α :=
  ws.foldl (upsertBy key) l

/-- The last element of ws with the given key, if any. -/
def lastOfKey (key : α → κ) (ws : List α) (k : κ) : Option α :=
  match ws with
  | [] => none
  | w :: ws' =>
    match lastOfKey key ws' k with
    | some q => some q
    | none => if key w = k then some w else none

/-- Replace a row by the last upserted row of its key, when one exists. -/
def subLast (key : α → κ) (ws : List α) (x : α) : α :=
  (lastOfKey key ws (key x)).getD x

/-- The rows a sequence of upserts appends to a list: one per key of ws that l
lacks, in first-occurrence order, carrying the last value of that key. -/
def news (key : α → κ) (l ws : List α) : List α :=
  match ws with
  | [] => []
  | w :: ws' =>
    if l.any (fun x => key x = key w) then news key l ws'
    else subLast key (w :: ws') w :: news key (l ++ [w]) ws'

end UpsertTheory

/-- Store for C1: one user who is a member of two leagues and ranks the same
contestant first in both, with one raw scoring event. -/
def sC1 : Store :=
  { rosters := [⟨1, 1, ("alpha"), 1, 1⟩, ⟨1, 2, ("alpha"), 1, 1⟩],
    league_members := [⟨1, 1⟩, ⟨2, 1⟩],
    queen_box_scores := [⟨("alpha"), 1, 4⟩],
    user_queen_scores := [], league_standings := [], settings := [] }

/-- Store for C2: one roster row to score, and a standings row from an earlier
run that a reader could be watching. -/
def sC2 : Store :=
  { rosters := [⟨1, 1, ("alpha"), 1, 1⟩], league_members := [⟨1, 1⟩],
    queen_box_scores := [⟨("alpha"), 1, 4⟩], user_queen_scores := [],
    league_standings := [⟨1, 1, 10⟩], settings := [] }

/-- Store for C8: settings that make both multiplier resolvers agree (all
ranks 2.0), one user in two leagues ranking the same contestant first in
both. Any difference between the engines on this store comes from their
conflict keys and rebuild strategies, not from the multiplier defaults. -/
def sC8 : Store :=
  { rosters := [⟨1, 1, ("alpha"), 1, 1⟩, ⟨1, 2, ("alpha"), 1, 1⟩],
    league_members := [⟨1, 1⟩, ⟨2, 1⟩],
    queen_box_scores := [⟨("alpha"), 1, 4⟩],
    user_queen_scores := [], league_standings := [],
    settings := [(("multiplier_rank_1"), ("2.0")), (("multiplier_rank_2"), ("2.0")),
                 (("multiplier_rank_3"), ("2.0")), (("multiplier_rank_4"), ("2.0"))] }

/-- Store for the C7 witness. -/
def sW7 : Store :=
  { rosters := [⟨1, 1, ("alpha"), 1, 1⟩, ⟨2, 1, ("beta"), 2, 1⟩],
    league_members := [⟨1, 1⟩, ⟨1, 2⟩],
    queen_box_scores := [⟨("alpha"), 1, 4⟩, ⟨("beta"), 1, 3⟩],
    user_queen_scores := [], league_standings := [], settings := [] }

/-- Store for the C4 counterexample: one user in two leagues holding the same
contestant at the same rank in both, and two raw events of 3 and 4 points. -/
def sC4 : Store :=
  { rosters := [⟨1, 1, ("alpha"), 5, 1⟩, ⟨1, 2, ("alpha"), 5, 1⟩],
    league_members := [⟨1, 1⟩, ⟨2, 1⟩],
    queen_box_scores := [⟨("alpha"), 1, 3⟩, ⟨("alpha"), 1, 4⟩],
    user_queen_scores := [], league_standings := [], settings := [] }

/-- Store for the C3 counterexample: one user in two leagues ranking the same
contestant first in both, raw points 7. -/
def sC3 : Store :=
  { rosters := [⟨1, 1, ("alpha"), 1, 1⟩, ⟨1, 2, ("alpha"), 1, 1⟩],
    league_members := [⟨1, 1⟩, ⟨2, 1⟩],
    queen_box_scores := [⟨("alpha"), 1, 7⟩],
    user_queen_scores := [], league_standings := [], settings := [] }

/-- The roster entry of the C3 witness. -/
def rW3 : RosterRow := ⟨1, 1, ("alpha"), 1, 1⟩

/-- Store for the C3 witness: rank-1 roster entry, raw points 7, default
multipliers (2.5 at rank 1 in the first implementation). -/
def sW3 : Store :=
  { rosters := [rW3], league_members := [⟨1, 1⟩],
    queen_box_scores := [⟨("alpha"), 1, 7⟩],
    user_queen_scores := [], league_standings := [], settings := [] }

/-- Store for the C5 witness: one episode-1 score of 17.5 already persisted
and cached, one episode-2 roster entry worth 4 * 2.5 = 10. -/
def sW5 : Store :=
  { rosters := [⟨1, 1, ("alpha"), 1, 2⟩], league_members := [⟨1, 1⟩],
    queen_box_scores := [⟨("alpha"), 2, 4⟩],
    user_queen_scores := [⟨1, 1, ("beta"), 1, 35/2, 1⟩],
    league_standings := [⟨1, 1, 35/2⟩], settings := [] }

/-- The settings key formatMultipliers reads for each rank. -/
def multKeyStr : ℕ → String := fun r =>
  if r = 1 then "multiplier_rank_1"
  else if r = 2 then "multiplier_rank_2"
  else if r = 3 then "multiplier_rank_3"
  else if r = 4 then "multiplier_rank_4"
  else ""

/-- The first implementation's default strings per rank. -/
def defaultStrV1 : ℕ → String := fun r =>
  if r = 1 then "2.5" else if r = 2 then "2.0"
  else if r = 3 then "1.5" else if r = 4 then "1.0" else ""

/-- The second implementation's default strings per rank. -/
def defaultStrV2 : ℕ → String := fun r =>
  if r = 1 then "2.0" else if r = 2 then "1.5"
  else if r = 3 then "1.0" else if r = 4 then "0.5" else ""

/-- The first implementation's default multipliers as numbers. -/
def defaultMultV1 : ℕ → Q := fun r =>
  if r = 1 then 5/2 else if r = 2 then 2 else if r = 3 then 3/2
  else if r = 4 then 1 else 0

/-- The second implementation's default multipliers as numbers. -/
def defaultMultV2 : ℕ → Q := fun r =>
  if r = 1 then 2 else if r = 2 then 3/2 else if r = 3 then 1
  else if r = 4 then 1/2 else 0

example : parseFloat ("2.5") = JSVal.num (5/2) := by decide
example : parseFloat ("abc") = JSVal.nan := by decide
example : parseFloat ("0") = JSVal.num 0 := by decide
example : parseFloat ("-1.5") = JSVal.num (-(3/2)) := by decide
example : parseIntJS ("1") = JSVal.num 1 := by decide
example : getCurrentEpisode [] = JSVal.num 1 := by decide
example : formatMultipliersV1 [] 1 = JSVal.num (5/2) := by decide
example : formatMultipliersV2 [] 4 = JSVal.num (1/2) := by decide
example : jsOr (formatMultipliersV1 [] 7) 1 = 1 := by decide

example :
    (recalculateScoresV1
      { rosters := [⟨1, 1, ("alpha"), 1, 1⟩], league_members := [⟨1, 1⟩],
        queen_box_scores := [⟨("alpha"), 1, 4⟩], user_queen_scores := [],
        league_standings := [], settings := [] } 1).user_queen_scores =
    [⟨1, 1, ("alpha"), 1, 10, 1⟩] := by decide

example :
    (recalculateScoresV2
      { rosters := [⟨1, 1, ("alpha"), 1, 1⟩], league_members := [⟨1, 1⟩],
        queen_box_scores := [⟨("alpha"), 1, 4⟩], user_queen_scores := [],
        league_standings := [], settings := [] } 1
      (formatMultipliersV2 [])).user_queen_scores =
    [⟨1, 1, ("alpha"), 1, 8, 1⟩] := by decide

example :
    (recalculateScoresV1
      { rosters := [⟨1, 1, ("alpha"), 1, 1⟩], league_members := [⟨1, 1⟩],
        queen_box_scores := [⟨("alpha"), 1, 4⟩], user_queen_scores := [],
        league_standings := [], settings := [] } 1).league_standings =
    [⟨1, 1, 10⟩] := by decide
section UpsertLemmas

variable {α κ : Type} [DecidableEq κ] (key : α → κ)

theorem lastOfKey_key : ∀ {ws : List α} {k : κ} {q : α},
    lastOfKey key ws k = some q → key q = k := by
  intro ws
  induction ws with
  | nil => intro k q h; simp [lastOfKey] at h
  | cons w ws ih =>
    intro k q h
    simp only [lastOfKey] at h
    rcases hq : lastOfKey key ws k with _ | q'
    · rw [hq] at h
      by_cases hk : key w = k
      · simp only [hk, if_pos rfl] at h
        injection h with h
        rw [← h]; exact hk
      · simp [hk] at h
    · rw [hq] at h
      injection h with h
      rw [← h]; exact ih hq

theorem lastOfKey_mem : ∀ {ws : List α} {k : κ} {q : α},
    lastOfKey key ws k = some q → q ∈ ws := by
  intro ws
  induction ws with
  | nil => intro k q h; simp [lastOfKey] at h
  | cons w ws ih =>
    intro k q h
    simp only [lastOfKey] at h
    rcases hq : lastOfKey key ws k with _ | q'
    · rw [hq] at h
      by_cases hk : key w = k
      · simp only [hk, if_pos rfl] at h
        injection h with h
        rw [← h]; exact List.mem_cons_self w ws
      · simp [hk] at h
    · rw [hq] at h
      injection h with h
      rw [← h]
      exact List.mem_cons_of_mem w (ih hq)

theorem lastOfKey_isSome_of_mem : ∀ {ws : List α} {w : α},
    w ∈ ws → (lastOfKey key ws (key w)).isSome := by
  intro ws
  induction ws with
  | nil => intro w h; simp at h
  | cons v ws ih =>
    intro w h
    simp only [lastOfKey]
    rcases hq : lastOfKey key ws (key w) with _ | q'
    · rcases List.mem_cons.mp h with h | h
      · rw [h]; simp
      · have hs := ih h
        rw [hq] at hs
        simp at hs
    · simp

theorem lastOfKey_cons_some {ws : List α} {k : κ} {q : α} (w : α)
    (h : lastOfKey key ws k = some q) : lastOfKey key (w :: ws) k = some q := by
  simp [lastOfKey, h]

theorem lastOfKey_eq_of_all : ∀ {ws : List α} {k : κ} {q₀ : α},
    (∀ w ∈ ws, key w = k → w = q₀) → (∃ w ∈ ws, key w = k) →
    lastOfKey key ws k = some q₀ := by
  intro ws
  induction ws with
  | nil => intro k q₀ _ hex; simp at hex
  | cons w ws ih =>
    intro k q₀ hall hex
    simp only [lastOfKey]
    rcases hq : lastOfKey key ws k with _ | q'
    · have hwk : key w = k := by
        rcases hex with ⟨v, hv, hvk⟩
        rcases List.mem_cons.mp hv with h | h
        · rw [← h]; exact hvk
        · have hs := lastOfKey_isSome_of_mem key h
          rw [hvk] at hs
          rw [hq] at hs
          simp at hs
      have hwq : w = q₀ := hall w (List.mem_cons_self w ws) hwk
      have hq0 : key q₀ = k := by rw [← hwq]; exact hwk
      simp [hwq, hq0]
    · have hq' : q' = q₀ := by
        have hm : q' ∈ ws := lastOfKey_mem key hq
        have hk : key q' = k := lastOfKey_key key hq
        exact hall q' (List.mem_cons_of_mem w hm) hk
      simp [hq']

theorem any_key_eq (l : List α) (k : κ) :
    (l.any fun x => key x = k) = true ↔ ∃ x ∈ l, key x = k := by
  simp [List.any_eq_true]

theorem key_subLast (ws : List α) (x : α) : key (subLast key ws x) = key x := by
  unfold subLast
  rcases h : lastOfKey key ws (key x) with _ | q
  · simp
  · simp
    exact lastOfKey_key key h

theorem subLast_idem (ws : List α) (x : α) :
    subLast key ws (subLast key ws x) = subLast key ws x := by
  rcases h : lastOfKey key ws (key x) with _ | q
  · unfold subLast
    rw [h]
    simp only [Option.getD_none]
    rw [h]
    exact rfl
  · unfold subLast
    rw [h]
    simp only [Option.getD_some]
    have hk : key q = key x := lastOfKey_key key h
    rw [hk, h]
    exact rfl

theorem subLast_cons_eq (w : α) (ws : List α) (x : α) (hx : key x = key w) :
    subLast key (w :: ws) x = subLast key ws w := by
  unfold subLast
  rw [hx]
  simp only [lastOfKey]
  rcases h : lastOfKey key ws (key w) with _ | q
  · simp [h]
  · simp [h]

theorem subLast_cons_ne (w : α) (ws : List α) (x : α) (hx : ¬ key x = key w) :
    subLast key (w :: ws) x = subLast key ws x := by
  unfold subLast
  simp only [lastOfKey]
  rcases h : lastOfKey key ws (key x) with _ | q
  · have hwx : ¬ key w = key x := fun hh => hx hh.symm
    simp [h, hwx]
  · simp [h]

theorem news_key_congr : ∀ (ws l l' : List α),
    (∀ k, (∃ x ∈ l, key x = k) ↔ (∃ x ∈ l', key x = k)) →
    news key l ws = news key l' ws := by
  intro ws
  induction ws with
  | nil => intro l l' _; rfl
  | cons w ws ih =>
    intro l l' hkeys
    simp only [news]
    have hany : (l.any fun x => key x = key w) = (l'.any fun x => key x = key w) := by
      by_cases h : (l.any fun x => key x = key w) = true
      · rw [h]
        symm
        rw [any_key_eq]
        exact (hkeys (key w)).mp ((any_key_eq key l (key w)).mp h)
      · have h2 : ¬ (l'.any fun x => key x = key w) = true := by
          intro hh
          exact h ((any_key_eq key l (key w)).mpr
            ((hkeys (key w)).mpr ((any_key_eq key l' (key w)).mp hh)))
        rw [Bool.not_eq_true] at h h2
        rw [h, h2]
    rw [hany]
    by_cases h : (l'.any fun x => key x = key w) = true
    · rw [if_pos h, if_pos h]
      exact ih l l' hkeys
    · rw [if_neg h, if_neg h]
      have hkeys' : ∀ k, (∃ x ∈ l ++ [w], key x = k) ↔ (∃ x ∈ l' ++ [w], key x = k) := by
        intro k
        constructor
        · rintro ⟨x, hx, hk⟩
          rcases List.mem_append.mp hx with hx | hx
          · rcases (hkeys k).mp ⟨x, hx, hk⟩ with ⟨y, hy, hyk⟩
            exact ⟨y, List.mem_append.mpr (Or.inl hy), hyk⟩
          · exact ⟨x, List.mem_append.mpr (Or.inr hx), hk⟩
        · rintro ⟨x, hx, hk⟩
          rcases List.mem_append.mp hx with hx | hx
          · rcases (hkeys k).mpr ⟨x, hx, hk⟩ with ⟨y, hy, hyk⟩
            exact ⟨y, List.mem_append.mpr (Or.inl hy), hyk⟩
          · exact ⟨x, List.mem_append.mpr (Or.inr hx), hk⟩
      rw [ih (l ++ [w]) (l' ++ [w]) hkeys']

theorem news_nil_of_keys : ∀ (ws l : List α),
    (∀ w ∈ ws, ∃ x ∈ l, key x = key w) → news key l ws = [] := by
  intro ws
  induction ws with
  | nil => intro l _; rfl
  | cons w ws ih =>
    intro l h
    simp only [news]
    have hw : (l.any fun x => key x = key w) = true :=
      (any_key_eq key l (key w)).mpr (h w (List.mem_cons_self w ws))
    rw [if_pos hw]
    exact ih l (fun v hv => h v (List.mem_cons_of_mem w hv))

theorem news_subLast : ∀ (ws l : List α) (x : α), x ∈ news key l ws →
    lastOfKey key ws (key x) = some x := by
  intro ws
  induction ws with
  | nil => intro l x h; simp [news] at h
  | cons w ws ih =>
    intro l x h
    simp only [news] at h
    by_cases hc : (l.any fun x => key x = key w) = true
    · rw [if_pos hc] at h
      exact lastOfKey_cons_some key w (ih l x h)
    · rw [if_neg hc] at h
      rcases List.mem_cons.mp h with h | h
      · have hs := lastOfKey_isSome_of_mem key (List.mem_cons_self w ws)
        rcases hq : lastOfKey key (w :: ws) (key w) with _ | q
        · rw [hq] at hs; simp at hs
        · have hx : x = q := by
            rw [h]
            unfold subLast
            rw [hq]
            exact rfl
          have hkq : key q = key w := lastOfKey_key key hq
          rw [hx, hkq]
          exact hq
      · exact lastOfKey_cons_some key w (ih (l ++ [w]) x h)

theorem foldUpserts_cons (l : List α) (w : α) (ws : List α) :
    foldUpserts key l (w :: ws) = foldUpserts key (upsertBy key l w) ws := rfl

theorem foldUpserts_eq : ∀ (ws l : List α),
    foldUpserts key l ws = l.map (subLast key ws) ++ news key l ws := by
  intro ws
  induction ws with
  | nil =>
    intro l
    have hmap : l.map (subLast key []) = l := by
      have h1 : l.map (subLast key []) = l.map id :=
        List.map_congr_left (fun x _ => by unfold subLast; simp [lastOfKey])
      rw [h1, List.map_id]
    simp [foldUpserts, news, hmap]
  | cons w ws ih =>
    intro l
    rw [foldUpserts_cons, ih]
    have krepl : ∀ x₀ : α, key (if key x₀ = key w then w else x₀) = key x₀ := by
      intro x₀
      by_cases h0 : key x₀ = key w
      · rw [if_pos h0, h0]
      · rw [if_neg h0]
    unfold upsertBy
    by_cases hc : (l.any fun x => key x = key w) = true
    · rw [if_pos hc]
      have hmap : (l.map (fun x => if key x = key w then w else x)).map (subLast key ws)
          = l.map (subLast key (w :: ws)) := by
        rw [List.map_map]
        apply List.map_congr_left
        intro x _
        simp only [Function.comp]
        by_cases hx : key x = key w
        · rw [if_pos hx, subLast_cons_eq key w ws x hx]
        · rw [if_neg hx, subLast_cons_ne key w ws x hx]
      have hnews : news key (l.map (fun x => if key x = key w then w else x)) ws
          = news key l ws := by
        apply news_key_congr
        intro k
        constructor
        · rintro ⟨x, hx, hk⟩
          rcases List.mem_map.mp hx with ⟨x₀, hx₀, hfx⟩
          refine ⟨x₀, hx₀, ?_⟩
          rw [← krepl x₀, hfx]
          exact hk
        · rintro ⟨x₀, hx₀, hk⟩
          exact ⟨_, List.mem_map_of_mem _ hx₀, by rw [krepl x₀]; exact hk⟩
      have hrhs : news key l (w :: ws) = news key l ws := by
        simp only [news]
        rw [if_pos hc]
      rw [hmap, hnews, hrhs]
    · rw [if_neg hc]
      have hnot : ∀ x ∈ l, ¬ key x = key w := by
        intro x hx hk
        exact hc ((any_key_eq key l (key w)).mpr ⟨x, hx, hk⟩)
      have hmap : l.map (subLast key ws) = l.map (subLast key (w :: ws)) := by
        apply List.map_congr_left
        intro x hx
        rw [subLast_cons_ne key w ws x (hnot x hx)]
      have hw : subLast key ws w = subLast key (w :: ws) w := by
        rw [subLast_cons_eq key w ws w rfl]
      have hrhs : news key l (w :: ws)
          = subLast key (w :: ws) w :: news key (l ++ [w]) ws := by
        simp only [news]
        rw [if_neg hc]
      rw [List.map_append, hrhs, ← hmap, ← hw]
      simp [List.append_assoc]

theorem exists_key_upsertBy (l : List α) (w : α) {k : κ} (h : ∃ x ∈ l, key x = k) :
    ∃ x ∈ upsertBy key l w, key x = k := by
  unfold upsertBy
  rcases h with ⟨x, hx, hk⟩
  by_cases hc : (l.any fun x => key x = key w) = true
  · rw [if_pos hc]
    refine ⟨_, List.mem_map_of_mem _ hx, ?_⟩
    by_cases h0 : key x = key w
    · rw [if_pos h0, ← h0]
      exact hk
    · rw [if_neg h0]
      exact hk
  · rw [if_neg hc]
    exact ⟨x, List.mem_append.mpr (Or.inl hx), hk⟩

theorem exists_key_upsertBy_self (l : List α) (w : α) :
    ∃ x ∈ upsertBy key l w, key x = key w := by
  unfold upsertBy
  by_cases hc : (l.any fun x => key x = key w) = true
  · rw [if_pos hc]
    rcases (any_key_eq key l (key w)).mp hc with ⟨x, hx, hk⟩
    refine ⟨_, List.mem_map_of_mem _ hx, ?_⟩
    rw [if_pos hk]
  · rw [if_neg hc]
    exact ⟨w, List.mem_append.mpr (Or.inr (List.mem_singleton_self w)), rfl⟩

theorem exists_key_foldUpserts : ∀ (ws l : List α) {k : κ},
    (∃ x ∈ l, key x = k) → ∃ x ∈ foldUpserts key l ws, key x = k := by
  intro ws
  induction ws with
  | nil => intro l k h; exact h
  | cons w ws ih =>
    intro l k h
    rw [foldUpserts_cons]
    exact ih _ (exists_key_upsertBy key l w h)

theorem exists_key_foldUpserts_of_mem : ∀ (ws l : List α) (w : α), w ∈ ws →
    ∃ x ∈ foldUpserts key l ws, key x = key w := by
  intro ws
  induction ws with
  | nil => intro l w h; simp at h
  | cons w' ws ih =>
    intro l w h
    rw [foldUpserts_cons]
    rcases List.mem_cons.mp h with h | h
    · rw [h]
      exact exists_key_foldUpserts key ws _ (exists_key_upsertBy_self key l w')
    · exact ih _ w h

theorem foldUpserts_idem (l ws : List α) :
    foldUpserts key (foldUpserts key l ws) ws = foldUpserts key l ws := by
  rw [foldUpserts_eq key ws (foldUpserts key l ws)]
  have hnews : news key (foldUpserts key l ws) ws = [] :=
    news_nil_of_keys key ws _ (fun w hw => exists_key_foldUpserts_of_mem key ws l w hw)
  have hmap : (foldUpserts key l ws).map (subLast key ws) = foldUpserts key l ws := by
    have hall : ∀ x ∈ foldUpserts key l ws, subLast key ws x = x := by
      intro x hx
      rw [foldUpserts_eq key ws l] at hx
      rcases List.mem_append.mp hx with hx | hx
      · rcases List.mem_map.mp hx with ⟨x₀, _, hfx⟩
        rw [← hfx]
        exact subLast_idem key ws x₀
      · have hlast := news_subLast key ws l x hx
        unfold subLast
        rw [hlast]
        exact rfl
    calc (foldUpserts key l ws).map (subLast key ws)
        = (foldUpserts key l ws).map id := List.map_congr_left (fun x hx => hall x hx)
      _ = foldUpserts key l ws := List.map_id _
  rw [hnews, hmap, List.append_nil]

theorem key_in_final_unique {ws l : List α} {k : κ} {q : α}
    (hq : lastOfKey key ws k = some q) :
    ∀ x ∈ foldUpserts key l ws, key x = k → x = q := by
  intro x hx hk
  rw [foldUpserts_eq key ws l] at hx
  rcases List.mem_append.mp hx with hx | hx
  · rcases List.mem_map.mp hx with ⟨x₀, _, hfx⟩
    unfold subLast at hfx
    rcases h0 : lastOfKey key ws (key x₀) with _ | q'
    · rw [h0] at hfx
      simp only [Option.getD_none] at hfx
      rw [← hfx] at hk
      rw [hk] at h0
      rw [h0] at hq
      cases hq
    · rw [h0] at hfx
      simp only [Option.getD_some] at hfx
      have hk' : key q' = key x₀ := lastOfKey_key key h0
      rw [hfx] at hk'
      rw [← hk', hk] at h0
      rw [h0] at hq
      injection hq with hq
      exact hfx ▸ hq
  · have hlast := news_subLast key ws l x hx
    rw [hk] at hlast
    exact Option.some.inj (hlast.symm.trans hq)

theorem mem_final_of_last {ws l : List α} {k : κ} {q : α}
    (hq : lastOfKey key ws k = some q) : q ∈ foldUpserts key l ws := by
  have hqws : q ∈ ws := lastOfKey_mem key hq
  have hkq : key q = k := lastOfKey_key key hq
  rcases exists_key_foldUpserts_of_mem key ws l q hqws with ⟨x, hx, hkx⟩
  have hxq := key_in_final_unique key hq x hx (by rw [hkx, hkq])
  rw [← hxq]
  exact hx

theorem mem_final_structure {ws l : List α} {x : α} (hx : x ∈ foldUpserts key l ws) :
    (∃ x₀ ∈ l, key x₀ = key x) ∨ x ∈ ws := by
  rw [foldUpserts_eq key ws l] at hx
  rcases List.mem_append.mp hx with hx | hx
  · rcases List.mem_map.mp hx with ⟨x₀, hx₀, hfx⟩
    left
    refine ⟨x₀, hx₀, ?_⟩
    rw [← hfx, key_subLast key ws x₀]
  · right
    exact lastOfKey_mem key (news_subLast key ws l x hx)

end UpsertLemmas

section Bridges

theorem upsertUQS_V1_eq (l : List UQSRow) (w : UQSRow) :
    upsertUQS_V1 l w = upsertBy keyV1 l w := by
  unfold upsertUQS_V1 upsertBy
  have hfun : (fun x : UQSRow =>
      if keyV1 x = keyV1 w then
        { x with calculated_points := w.calculated_points, rank := w.rank }
      else x) = fun x : UQSRow => if keyV1 x = keyV1 w then w else x := by
    funext x
    by_cases h : keyV1 x = keyV1 w
    · rw [if_pos h, if_pos h]
      obtain ⟨xu, xl, xq, xe, xp, xr⟩ := x
      obtain ⟨wu, wl, wq, we, wp, wr⟩ := w
      simp only [keyV1, Prod.mk.injEq] at h
      obtain ⟨h1, h2, h3, h4⟩ := h
      subst h1; subst h2; subst h3; subst h4
      rfl
    · rw [if_neg h, if_neg h]
  rw [hfun]

theorem upsertUQS_V2_eq (l : List UQSRow) (w : UQSRow) :
    upsertUQS_V2 l w = upsertBy keyV2 l w := by
  unfold upsertUQS_V2 upsertBy
  have hfun : (fun x : UQSRow =>
      if keyV2 x = keyV2 w then
        { x with queen := w.queen, calculated_points := w.calculated_points,
                 league := w.league }
      else x) = fun x : UQSRow => if keyV2 x = keyV2 w then w else x := by
    funext x
    by_cases h : keyV2 x = keyV2 w
    · rw [if_pos h, if_pos h]
      obtain ⟨xu, xl, xq, xe, xp, xr⟩ := x
      obtain ⟨wu, wl, wq, we, wp, wr⟩ := w
      simp only [keyV2, Prod.mk.injEq] at h
      obtain ⟨h1, h2, h3⟩ := h
      subst h1; subst h2; subst h3
      rfl
    · rw [if_neg h, if_neg h]
  rw [hfun]

theorem upsertStanding_eq (l : List StandingsRow) (w : StandingsRow) :
    upsertStanding l w = upsertBy keyStand l w := by
  unfold upsertStanding upsertBy
  have hfun : (fun x : StandingsRow =>
      if keyStand x = keyStand w then { x with total_score := w.total_score } else x)
      = fun x : StandingsRow => if keyStand x = keyStand w then w else x := by
    funext x
    by_cases h : keyStand x = keyStand w
    · rw [if_pos h, if_pos h]
      obtain ⟨xu, xl, xt⟩ := x
      obtain ⟨wu, wl, wt⟩ := w
      simp only [keyStand, Prod.mk.injEq] at h
      obtain ⟨h1, h2⟩ := h
      subst h1; subst h2
      rfl
    · rw [if_neg h, if_neg h]
  rw [hfun]

theorem uqsAfterV1_eq (s : Store) (ep : ℕ) :
    uqsAfterV1 s ep = foldUpserts keyV1 s.user_queen_scores
      ((s.rosters.filter (fun r => r.episode = ep)).map (candV1 s ep)) := by
  unfold uqsAfterV1 foldUpserts
  rw [List.foldl_map]
  have hfun : (fun acc r => upsertUQS_V1 acc (candV1 s ep r))
      = fun (acc : List UQSRow) (r : RosterRow) => upsertBy keyV1 acc (candV1 s ep r) := by
    funext acc r
    exact upsertUQS_V1_eq acc (candV1 s ep r)
  rw [hfun]

theorem uqsAfterV2_eq (s : Store) (ep : ℕ) (m : ℕ → JSVal) :
    uqsAfterV2 s ep m = foldUpserts keyV2 s.user_queen_scores
      ((epPointsV2 s ep).map (candV2 ep m)) := by
  unfold uqsAfterV2 foldUpserts
  rw [List.foldl_map]
  have hfun : (fun acc row => upsertUQS_V2 acc (candV2 ep m row))
      = fun (acc : List UQSRow) (row : EpPointsRow) => upsertBy keyV2 acc (candV2 ep m row) := by
    funext acc row
    exact upsertUQS_V2_eq acc (candV2 ep m row)
  rw [hfun]

theorem standingsAfterV1_eq (uqs : List UQSRow) (st : List StandingsRow) :
    standingsAfterV1 uqs st = foldUpserts keyStand st
      ((groupPairsUL uqs).map (fun p => ⟨p.1, p.2, sumCalc uqs p.1 p.2⟩)) := by
  unfold standingsAfterV1 foldUpserts
  rw [List.foldl_map]
  have hfun : (fun acc (p : ℕ × ℕ) => upsertStanding acc ⟨p.1, p.2, sumCalc uqs p.1 p.2⟩)
      = fun (acc : List StandingsRow) (p : ℕ × ℕ) =>
          upsertBy keyStand acc ⟨p.1, p.2, sumCalc uqs p.1 p.2⟩ := by
    funext acc p
    exact upsertStanding_eq acc ⟨p.1, p.2, sumCalc uqs p.1 p.2⟩
  rw [hfun]

end Bridges

section Idempotence

theorem recalcV1_idem (s : Store) (ep : ℕ) :
    recalculateScoresV1 (recalculateScoresV1 s ep) ep = recalculateScoresV1 s ep := by
  have huqs : uqsAfterV1 (recalculateScoresV1 s ep) ep = uqsAfterV1 s ep := by
    have e2 : uqsAfterV1 (recalculateScoresV1 s ep) ep
        = foldUpserts keyV1 (uqsAfterV1 s ep)
          ((s.rosters.filter (fun r => r.episode = ep)).map (candV1 s ep)) :=
      uqsAfterV1_eq (recalculateScoresV1 s ep) ep
    rw [e2, uqsAfterV1_eq s ep]
    exact foldUpserts_idem keyV1 _ _
  have hst : standingsAfterV1 (uqsAfterV1 (recalculateScoresV1 s ep) ep)
      (recalculateScoresV1 s ep).league_standings
      = standingsAfterV1 (uqsAfterV1 s ep) s.league_standings := by
    rw [huqs]
    have e3 : (recalculateScoresV1 s ep).league_standings
        = standingsAfterV1 (uqsAfterV1 s ep) s.league_standings := rfl
    rw [e3]
    conv_lhs => rw [standingsAfterV1_eq]
    rw [standingsAfterV1_eq (uqsAfterV1 s ep) s.league_standings]
    exact foldUpserts_idem keyStand _ _
  exact Store.ext rfl rfl rfl huqs hst rfl

theorem recalcV2_idem (s : Store) (ep : ℕ) (m : ℕ → JSVal) :
    recalculateScoresV2 (recalculateScoresV2 s ep m) ep m = recalculateScoresV2 s ep m := by
  have huqs : uqsAfterV2 (recalculateScoresV2 s ep m) ep m = uqsAfterV2 s ep m := by
    have e2 : uqsAfterV2 (recalculateScoresV2 s ep m) ep m
        = foldUpserts keyV2 (uqsAfterV2 s ep m) ((epPointsV2 s ep).map (candV2 ep m)) :=
      uqsAfterV2_eq (recalculateScoresV2 s ep m) ep m
    rw [e2, uqsAfterV2_eq s ep m]
    exact foldUpserts_idem keyV2 _ _
  have hst : rebuildStandings (uqsAfterV2 (recalculateScoresV2 s ep m) ep m)
      = rebuildStandings (uqsAfterV2 s ep m) := by
    rw [huqs]
  exact Store.ext rfl rfl rfl huqs hst rfl

theorem iterate_fix {β : Type} {f : β → β} (hf : ∀ t, f (f t) = f t) :
    ∀ N, 1 ≤ N → ∀ s, f^[N] s = f s := by
  intro N
  induction N with
  | zero => intro h; exact absurd h (by omega)
  | succ n ih =>
    intro _ s
    rcases Nat.eq_zero_or_pos n with h0 | hpos
    · subst h0
      rfl
    · rw [Function.iterate_succ_apply]
      rw [ih hpos (f s)]
      exact hf s

end Idempotence

/-- C1: the claim says the persisted EpisodeScore rows are keyed by
(user, league, contestant, episode), so roster entries differing in league
get independent rows. The first implementation does this (two rows, leagues
1 and 2), but the second keys on (user, rank, episode): its league-2 write
overwrites the league-1 row, leaving a single row with league 2. -/
theorem C1_code_bug_eval :
    (recalculateScoresV1 sC1 1).user_queen_scores.length = 2 ∧
    ((recalculateScoresV1 sC1 1).user_queen_scores.map (fun r => r.league)) = [1, 2] ∧
    (recalculateScoresV2 sC1 1 (formatMultipliersV2 [])).user_queen_scores.length = 1 ∧
    ((recalculateScoresV2 sC1 1 (formatMultipliersV2 [])).user_queen_scores.map
      (fun r => r.league)) = [2] := by decide

/-- C2: the claim says no reachable intermediate state of the standings
rebuild has an empty league_standings while user_queen_scores is non-empty.
The second implementation's rebuild runs DELETE FROM league_standings as its
own statement: the state right after it is on the observable trace, has an
empty standings table, and has non-empty user_queen_scores. -/
theorem C2_code_bug_eval :
    recalcV2_afterDelete sC2 1 (formatMultipliersV2 []) ∈
      recalcV2_trace sC2 1 (formatMultipliersV2 []) ∧
    (recalcV2_afterDelete sC2 1 (formatMultipliersV2 [])).league_standings = [] ∧
    (recalcV2_afterDelete sC2 1 (formatMultipliersV2 [])).user_queen_scores ≠ [] := by
  decide

/-- C8: the two recalculateScores implementations are mutually inconsistent:
on sC8 both resolve the same multipliers for ranks 1-4, yet they produce
different user_queen_scores and different league_standings; and on empty
settings the two formatMultipliers return different rank-1 defaults. -/
theorem C8_inconsistent :
    (∀ r ∈ [1, 2, 3, 4], formatMultipliersV1 sC8.settings r = formatMultipliersV2 sC8.settings r) ∧
    (recalculateScoresV1 sC8 1).user_queen_scores ≠
      (recalculateScoresV2 sC8 1 (formatMultipliersV2 sC8.settings)).user_queen_scores ∧
    (recalculateScoresV1 sC8 1).league_standings ≠
      (recalculateScoresV2 sC8 1 (formatMultipliersV2 sC8.settings)).league_standings ∧
    formatMultipliersV1 [] 1 ≠ formatMultipliersV2 [] 1 := by decide

/-- C7: with the rosters, raw scores, members and settings fixed, running
either version of recalculateScores N ≥ 1 times in a row for the same episode
leaves user_queen_scores and league_standings exactly as one run does (the
second version for any caller-supplied multiplier mapping m). -/
theorem C7_idempotent (s : Store) (ep : ℕ) (m : ℕ → JSVal) (N : ℕ) (hN : 1 ≤ N) :
    (fun t => recalculateScoresV1 t ep)^[N] s = recalculateScoresV1 s ep ∧
    (fun t => recalculateScoresV2 t ep m)^[N] s = recalculateScoresV2 s ep m := by
  constructor
  · exact iterate_fix (fun t => recalcV1_idem t ep) N hN s
  · exact iterate_fix (fun t => recalcV2_idem t ep m) N hN s

/-- Witness for C7 at N = 2 on a concrete store. -/
theorem C7_witness :
    (fun t => recalculateScoresV1 t 1)^[2] sW7 = recalculateScoresV1 sW7 1 ∧
    (fun t => recalculateScoresV2 t 1 (formatMultipliersV2 []))^[2] sW7 =
      recalculateScoresV2 sW7 1 (formatMultipliersV2 []) :=
  C7_idempotent sW7 1 (formatMultipliersV2 []) 2 (by decide)

/-- C9: the league_members relation never gains a duplicate (league, user)
pair: joining a league the user is already a member of leaves the table
unchanged, and the join preserves distinctness of the (league, user) pairs. -/
theorem C9_membership (ms : List MemberRow) (lg u : ℕ) :
    ((⟨lg, u⟩ : MemberRow) ∈ ms → joinLeague ms lg u = ms) ∧
    ((ms.map (fun m => (m.league, m.user))).Nodup →
      ((joinLeague ms lg u).map (fun m => (m.league, m.user))).Nodup) := by
  constructor
  · intro h
    unfold joinLeague
    have hc : (ms.any fun m => m.league = lg ∧ m.user = u) = true := by
      rw [List.any_eq_true]
      exact ⟨⟨lg, u⟩, h, by simp⟩
    rw [if_pos hc]
  · intro hnd
    unfold joinLeague
    by_cases hc : (ms.any fun m => m.league = lg ∧ m.user = u) = true
    · rw [if_pos hc]
      exact hnd
    · rw [if_neg hc, List.map_append]
      rw [List.nodup_append]
      refine ⟨hnd, by simp, ?_⟩
      intro a ha hb
      simp only [List.map_cons, List.map_nil, List.mem_singleton] at hb
      rcases List.mem_map.mp ha with ⟨mrow, hm, hma⟩
      apply hc
      rw [List.any_eq_true]
      refine ⟨mrow, hm, ?_⟩
      rw [hb] at hma
      have h1 : mrow.league = lg := congrArg Prod.fst hma
      have h2 : mrow.user = u := congrArg Prod.snd hma
      simp [h1, h2]

/-- Witness for C9 on a concrete membership table. -/
theorem C9_witness :
    joinLeague [⟨1, 2⟩] 1 2 = [⟨1, 2⟩] ∧
    (((joinLeague [⟨1, 2⟩] 1 2).map (fun m => (m.league, m.user))).Nodup) :=
  ⟨(C9_membership [⟨1, 2⟩] 1 2).1 (by decide),
   (C9_membership [⟨1, 2⟩] 1 2).2 (by decide)⟩

/-- C10: when the settings table has no current_episode row, or its value is
the empty string, getCurrentEpisode parses the fallback string and returns 1. -/
theorem C10_default_episode (settings : List (String × String))
    (h : lookupSetting settings ("current_episode") = none ∨
         lookupSetting settings ("current_episode") = some "") :
    getCurrentEpisode settings = JSVal.num 1 := by
  unfold getCurrentEpisode
  rcases h with h | h
  · rw [h]
    decide
  · rw [h]
    decide

/-- Witness for C10 on a settings table whose current_episode row is empty. -/
theorem C10_witness : getCurrentEpisode [(("current_episode"), (""))] = JSVal.num 1 :=
  C10_default_episode [(("current_episode"), (""))] (Or.inr (by decide))

theorem find_pair_snd {γ : Type} (qs : List String) (f : String → γ) (q : String)
    (hq : q ∈ qs) :
    (((qs.map (fun x => (x, f x))).find? (fun p => p.1 = q)).map (fun p => p.2))
      = some (f q) := by
  induction qs with
  | nil => simp at hq
  | cons x qs ih =>
    simp only [List.map_cons]
    by_cases hx : x = q
    · subst hx
      rw [List.find?_cons_of_pos]
      · rfl
      · simp
    · rw [List.find?_cons_of_neg]
      · refine ih ?_
        rcases List.mem_cons.mp hq with h | h
        · exact absurd h.symm hx
        · exact h
      · simp [hx]

/-- C4 (amended): in the first implementation, the aggregated raw points used
for any contestant and episode equal the sum of all queen_box_scores rows
matching that (contestant, episode) — a contestant with no rows aggregates
to 0, and multiple event rows are summed. -/
theorem C4_amended (boxes : List BoxScoreRow) (ep : ℕ) (q : String) :
    rawPointsV1 boxes ep q = sumPointsSpec boxes ep q := by
  unfold rawPointsV1 aggRawV1 sumPointsSpec
  by_cases hq : q ∈ ((boxes.filter (fun b => b.episode = ep)).map (fun b => b.queen)).dedup
  · rw [find_pair_snd _ _ q hq]
    simp only [Option.getD_some]
    congr 1
    have hpred : (fun b : BoxScoreRow => decide (b.queen = q) && decide (b.episode = ep))
        = fun b : BoxScoreRow => decide (b.episode = ep ∧ b.queen = q) := by
      funext b
      by_cases h1 : b.episode = ep <;> by_cases h2 : b.queen = q <;> simp [h1, h2]
    rw [List.filter_filter, hpred]
  · have hnone : (((((boxes.filter (fun b => b.episode = ep)).map
        (fun b => b.queen)).dedup).map (fun q' => (q',
          (((boxes.filter (fun b => b.episode = ep)).filter
            (fun b => b.queen = q')).map (fun b => b.points)).sum))).find?
        (fun p => p.1 = q)) = none := by
      rw [List.find?_eq_none]
      intro p hp
      rcases List.mem_map.mp hp with ⟨q', hq', hpe⟩
      rw [← hpe]
      simp only [decide_eq_true_eq]
      intro h
      exact hq (h ▸ hq')
    rw [hnone]
    have hnil : boxes.filter (fun b => b.episode = ep ∧ b.queen = q) = [] := by
      rw [List.filter_eq_nil_iff]
      intro b hb
      simp only [decide_eq_true_eq, not_and]
      intro hbe hbq
      apply hq
      rw [List.mem_dedup]
      exact List.mem_map.mpr ⟨b, List.mem_filter.mpr ⟨hb, by simp [hbe]⟩, hbq⟩
    rw [hnil]
    rfl

/-- C4 counterexample: the second implementation's aggregation query returns
raw points 14 for a contestant whose matching rows sum to 7 (each group
joins both of the user's roster rows for that rank and contestant), and it
persists 14 (rank 5 maps to multiplier 1.0); the claim demands 7. -/
theorem C4_counterexample :
    ((epPointsV2 sC4 1).map (fun r => r.raw_points)) = [14, 14] ∧
    sumPointsSpec sC4.queen_box_scores 1 ("alpha") = 7 ∧
    ((recalculateScoresV2 sC4 1 (formatMultipliersV2 [])).user_queen_scores.map
      (fun r => r.calculated_points)) = [14] ∧
    (14 : Q) ≠ 7 := by decide

/-- C3 counterexample: for the roster entries of sC3, the second
implementation persists calculated_points 28, while
rawPoints(contestant) * multiplier(rank) is 7 * 2.0 = 14 — the joined
aggregation doubles the raw points and the (user, rank, episode) key
collapses the two entries to one row. -/
theorem C3_counterexample :
    ((recalculateScoresV2 sC3 1 (formatMultipliersV2 [])).user_queen_scores.map
      (fun r => r.calculated_points)) = [28] ∧
    sumPointsSpec sC3.queen_box_scores 1 ("alpha") *
      jsOr (formatMultipliersV2 [] 1) 1 = 14 ∧
    (28 : Q) ≠ 14 := by decide

/-- C3 (amended): in the first implementation, for every roster entry of the
episode (with at most one entry per (user, league, contestant)), the final
user_queen_scores contains exactly one row for that entry's
(user, league, contestant, episode) key, and its calculated_points is
rawPointsV1 (0 for an unmatched contestant) times the resolved multiplier
(1.0 for a rank outside the mapping). -/
theorem C3_amended (s : Store) (ep : ℕ) (r : RosterRow)
    (hr : r ∈ s.rosters) (hep : r.episode = ep)
    (huniq : ∀ r' ∈ s.rosters, r'.episode = ep → r'.user = r.user →
      r'.league = r.league → r'.queen = r.queen → r' = r) :
    candV1 s ep r ∈ (recalculateScoresV1 s ep).user_queen_scores ∧
    ∀ x ∈ (recalculateScoresV1 s ep).user_queen_scores,
      x.user = r.user → x.league = r.league → x.queen = r.queen → x.episode = ep →
      x = candV1 s ep r := by
  have hrent : r ∈ s.rosters.filter (fun r' => r'.episode = ep) :=
    List.mem_filter.mpr ⟨hr, by simp [hep]⟩
  have hcand : candV1 s ep r ∈ (s.rosters.filter (fun r' => r'.episode = ep)).map (candV1 s ep) :=
    List.mem_map_of_mem _ hrent
  have hall : ∀ w ∈ (s.rosters.filter (fun r' => r'.episode = ep)).map (candV1 s ep),
      keyV1 w = keyV1 (candV1 s ep r) → w = candV1 s ep r := by
    intro w hw hkw
    rcases List.mem_map.mp hw with ⟨r', hr', hre⟩
    have hr'mem : r' ∈ s.rosters := (List.mem_filter.mp hr').1
    have hr'ep : r'.episode = ep := by
      have h2 := (List.mem_filter.mp hr').2
      simpa using h2
    rw [← hre] at hkw
    simp only [candV1, keyV1, Prod.mk.injEq] at hkw
    obtain ⟨h1, h2, h3, _⟩ := hkw
    have hr'r : r' = r := huniq r' hr'mem hr'ep h1 h2 h3
    rw [← hre, hr'r]
  have hlast : lastOfKey keyV1
      ((s.rosters.filter (fun r' => r'.episode = ep)).map (candV1 s ep))
      (keyV1 (candV1 s ep r)) = some (candV1 s ep r) :=
    lastOfKey_eq_of_all keyV1 hall ⟨candV1 s ep r, hcand, rfl⟩
  have hfield : (recalculateScoresV1 s ep).user_queen_scores
      = foldUpserts keyV1 s.user_queen_scores
        ((s.rosters.filter (fun r' => r'.episode = ep)).map (candV1 s ep)) :=
    uqsAfterV1_eq s ep
  rw [hfield]
  constructor
  · exact mem_final_of_last keyV1 hlast
  · intro x hx h1 h2 h3 h4
    apply key_in_final_unique keyV1 hlast x hx
    simp only [keyV1, candV1]
    rw [h1, h2, h3, h4]

/-- Witness for C3 on a concrete store: the persisted candidate row exists and
carries 7 * 2.5 = 17.5 points. -/
theorem C3_witness :
    candV1 sW3 1 rW3 ∈ (recalculateScoresV1 sW3 1).user_queen_scores ∧
    (candV1 sW3 1 rW3).calculated_points = 35/2 :=
  ⟨(C3_amended sW3 1 rW3 (by decide) (by decide) (by decide)).1, by decide⟩

theorem find_of_all_eq {γ : Type} {p : γ → Bool} {l : List γ} {t : γ}
    (hmem : t ∈ l) (hpt : p t = true) (hall : ∀ x ∈ l, p x = true → x = t) :
    l.find? p = some t := by
  induction l with
  | nil => simp at hmem
  | cons a l ih =>
    by_cases hpa : p a = true
    · rw [List.find?_cons_of_pos _ hpa]
      rw [hall a (List.mem_cons_self a l) hpa]
    · rw [List.find?_cons_of_neg _ (by simp [hpa])]
      apply ih
      · rcases List.mem_cons.mp hmem with h | h
        · exact absurd (h ▸ hpt) hpa
        · exact h
      · intro x hx hpx
        exact hall x (List.mem_cons_of_mem a hx) hpx

theorem sumCalc_zero_of_no_pair {uqs : List UQSRow} {u lg : ℕ}
    (h : ∀ x ∈ uqs, ¬(x.user = u ∧ x.league = lg)) : sumCalc uqs u lg = 0 := by
  unfold sumCalc
  have hnil : uqs.filter (fun x => x.user = u ∧ x.league = lg) = [] := by
    rw [List.filter_eq_nil_iff]
    intro x hx
    simp only [decide_eq_true_eq]
    exact h x hx
  rw [hnil]
  rfl

/-- The second implementation's rebuilt standings agree with the summed
user_queen_scores at every (user, league) pair, missing rows reading as 0. -/
theorem standingsTotal_rebuild (uqs : List UQSRow) (u lg : ℕ) :
    standingsTotal (rebuildStandings uqs) u lg = sumCalc uqs u lg := by
  by_cases hp : (lg, u) ∈ groupPairsLU uqs
  · have hmem : (⟨u, lg, sumCalc uqs u lg⟩ : StandingsRow) ∈ rebuildStandings uqs := by
      unfold rebuildStandings
      exact List.mem_map.mpr ⟨(lg, u), hp, rfl⟩
    have hall : ∀ x ∈ rebuildStandings uqs, (decide (x.user = u ∧ x.league = lg)) = true →
        x = ⟨u, lg, sumCalc uqs u lg⟩ := by
      intro x hx hpx
      simp only [decide_eq_true_eq] at hpx
      obtain ⟨h1, h2⟩ := hpx
      unfold rebuildStandings at hx
      rcases List.mem_map.mp hx with ⟨p, hpm, hpe⟩
      rcases p with ⟨pl, pu⟩
      rw [← hpe] at h1 h2 ⊢
      simp only at h1 h2
      rw [h1, h2]
    have hfind : (rebuildStandings uqs).find? (fun x => x.user = u ∧ x.league = lg)
        = some ⟨u, lg, sumCalc uqs u lg⟩ :=
      find_of_all_eq hmem (by simp) hall
    unfold standingsTotal
    rw [hfind]
    rfl
  · have hnorow : ∀ x ∈ uqs, ¬(x.user = u ∧ x.league = lg) := by
      intro x hx hcontra
      apply hp
      unfold groupPairsLU
      rw [List.mem_dedup]
      exact List.mem_map.mpr ⟨x, hx, by rw [hcontra.1, hcontra.2]⟩
    have hnone : (rebuildStandings uqs).find? (fun x => x.user = u ∧ x.league = lg)
        = none := by
      rw [List.find?_eq_none]
      intro x hx
      simp only [decide_eq_true_eq]
      intro hcontra
      obtain ⟨h1, h2⟩ := hcontra
      unfold rebuildStandings at hx
      rcases List.mem_map.mp hx with ⟨p, hpm, hpe⟩
      apply hp
      rcases p with ⟨pl, pu⟩
      rw [← hpe] at h1 h2
      simp only at h1 h2
      rw [← h1, ← h2]
      exact hpm
    unfold standingsTotal
    rw [hnone, sumCalc_zero_of_no_pair hnorow]
    rfl

/-- The first implementation's standings upsert makes every (user, league)
total agree with the summed user_queen_scores, provided every pre-existing
standings row's pair has at least one user_queen_scores row (the ownership
invariant: standings rows are only ever written from user_queen_scores
groups, and user_queen_scores rows are never deleted). -/
theorem standingsTotal_afterV1 (uqs : List UQSRow) (st : List StandingsRow)
    (hinv : ∀ row ∈ st, ∃ x ∈ uqs, x.user = row.user ∧ x.league = row.league)
    (u lg : ℕ) :
    standingsTotal (standingsAfterV1 uqs st) u lg = sumCalc uqs u lg := by
  rw [standingsAfterV1_eq]
  by_cases hp : (u, lg) ∈ groupPairsUL uqs
  · have hmem : (⟨u, lg, sumCalc uqs u lg⟩ : StandingsRow) ∈
        (groupPairsUL uqs).map (fun p => (⟨p.1, p.2, sumCalc uqs p.1 p.2⟩ : StandingsRow)) :=
      List.mem_map.mpr ⟨(u, lg), hp, rfl⟩
    have hall : ∀ w ∈ (groupPairsUL uqs).map
        (fun p => (⟨p.1, p.2, sumCalc uqs p.1 p.2⟩ : StandingsRow)),
        keyStand w = (u, lg) → w = ⟨u, lg, sumCalc uqs u lg⟩ := by
      intro w hw hkw
      rcases List.mem_map.mp hw with ⟨p, hpm, hpe⟩
      rcases p with ⟨p1, p2⟩
      rw [← hpe] at hkw ⊢
      simp only [keyStand] at hkw
      have h1 : p1 = u := congrArg Prod.fst hkw
      have h2 : p2 = lg := congrArg Prod.snd hkw
      rw [h1, h2]
    have hlast : lastOfKey keyStand
        ((groupPairsUL uqs).map (fun p => (⟨p.1, p.2, sumCalc uqs p.1 p.2⟩ : StandingsRow)))
        (u, lg) = some ⟨u, lg, sumCalc uqs u lg⟩ :=
      lastOfKey_eq_of_all keyStand hall ⟨_, hmem, rfl⟩
    have htmem : (⟨u, lg, sumCalc uqs u lg⟩ : StandingsRow) ∈
        foldUpserts keyStand st ((groupPairsUL uqs).map
          (fun p => (⟨p.1, p.2, sumCalc uqs p.1 p.2⟩ : StandingsRow))) :=
      mem_final_of_last keyStand hlast
    have hall2 : ∀ x ∈ foldUpserts keyStand st ((groupPairsUL uqs).map
        (fun p => (⟨p.1, p.2, sumCalc uqs p.1 p.2⟩ : StandingsRow))),
        (decide (x.user = u ∧ x.league = lg)) = true → x = ⟨u, lg, sumCalc uqs u lg⟩ := by
      intro x hx hpx
      simp only [decide_eq_true_eq] at hpx
      apply key_in_final_unique keyStand hlast x hx
      simp [keyStand, hpx.1, hpx.2]
    have hfind := find_of_all_eq htmem (by simp) hall2
    unfold standingsTotal
    rw [hfind]
    rfl
  · have hnorow : ∀ x ∈ uqs, ¬(x.user = u ∧ x.league = lg) := by
      intro x hx hcontra
      apply hp
      unfold groupPairsUL
      rw [List.mem_dedup]
      exact List.mem_map.mpr ⟨x, hx, by rw [hcontra.1, hcontra.2]⟩
    have hnfinal : ∀ x ∈ foldUpserts keyStand st ((groupPairsUL uqs).map
        (fun p => (⟨p.1, p.2, sumCalc uqs p.1 p.2⟩ : StandingsRow))),
        ¬(x.user = u ∧ x.league = lg) := by
      intro x hx hcontra
      rcases mem_final_structure keyStand hx with ⟨x₀, hx₀, hk⟩ | hxws
      · rcases hinv x₀ hx₀ with ⟨y, hy, hy1, hy2⟩
        apply hnorow y hy
        have hfst : x₀.user = x.user := congrArg Prod.fst hk
        have hsnd : x₀.league = x.league := congrArg Prod.snd hk
        constructor
        · rw [hy1, hfst, hcontra.1]
        · rw [hy2, hsnd, hcontra.2]
      · rcases List.mem_map.mp hxws with ⟨p, hpm, hpe⟩
        apply hp
        rcases p with ⟨p1, p2⟩
        rw [← hpe] at hcontra
        simp only at hcontra
        rw [← hcontra.1, ← hcontra.2]
        exact hpm
    have hfnone : (foldUpserts keyStand st ((groupPairsUL uqs).map
        (fun p => (⟨p.1, p.2, sumCalc uqs p.1 p.2⟩ : StandingsRow)))).find?
        (fun x => x.user = u ∧ x.league = lg) = none := by
      rw [List.find?_eq_none]
      intro x hx
      simp only [decide_eq_true_eq]
      exact hnfinal x hx
    unfold standingsTotal
    rw [hfnone, sumCalc_zero_of_no_pair hnorow]
    rfl

/-- C5: after either version of recalculateScores completes, the standings
total read for every (user, league) pair equals the sum of that pair's
user_queen_scores rows across all episodes. For the first implementation the
pre-state must satisfy the standings ownership invariant (every standings
row's pair has a user_queen_scores row); the second rebuilds from scratch and
needs no hypothesis beyond it. -/
theorem C5_season_totals (s : Store) (ep : ℕ)
    (hinv : ∀ row ∈ s.league_standings, ∃ x ∈ s.user_queen_scores,
      x.user = row.user ∧ x.league = row.league) :
    (∀ u lg, standingsTotal (recalculateScoresV1 s ep).league_standings u lg
      = sumCalc (recalculateScoresV1 s ep).user_queen_scores u lg) ∧
    (∀ m u lg, standingsTotal (recalculateScoresV2 s ep m).league_standings u lg
      = sumCalc (recalculateScoresV2 s ep m).user_queen_scores u lg) := by
  constructor
  · intro u lg
    have h1 : (recalculateScoresV1 s ep).league_standings
        = standingsAfterV1 (uqsAfterV1 s ep) s.league_standings := rfl
    have h2 : (recalculateScoresV1 s ep).user_queen_scores = uqsAfterV1 s ep := rfl
    rw [h1, h2]
    apply standingsTotal_afterV1
    intro row hrow
    rcases hinv row hrow with ⟨x, hx, hx1, hx2⟩
    have hkey : ∃ y ∈ foldUpserts keyV1 s.user_queen_scores
        ((s.rosters.filter (fun r' => r'.episode = ep)).map (candV1 s ep)),
        keyV1 y = keyV1 x :=
      exists_key_foldUpserts keyV1 _ s.user_queen_scores ⟨x, hx, rfl⟩
    rcases hkey with ⟨y, hy, hyk⟩
    refine ⟨y, by rw [uqsAfterV1_eq]; exact hy, ?_, ?_⟩
    · have hu : y.user = x.user := congrArg Prod.fst hyk
      rw [hu, hx1]
    · have hl : y.league = x.league := congrArg (fun t => t.2.1) hyk
      rw [hl, hx2]
  · intro m u lg
    have h1 : (recalculateScoresV2 s ep m).league_standings
        = rebuildStandings (uqsAfterV2 s ep m) := rfl
    have h2 : (recalculateScoresV2 s ep m).user_queen_scores = uqsAfterV2 s ep m := rfl
    rw [h1, h2]
    exact standingsTotal_rebuild (uqsAfterV2 s ep m) u lg

/-- Witness for C5: after recalculating episode 2, the cached season total is
the cross-episode sum 17.5 + 10 = 27.5. -/
theorem C5_witness :
    standingsTotal (recalculateScoresV1 sW5 2).league_standings 1 1
      = sumCalc (recalculateScoresV1 sW5 2).user_queen_scores 1 1 ∧
    sumCalc (recalculateScoresV1 sW5 2).user_queen_scores 1 1 = 55/2 :=
  ⟨(C5_season_totals sW5 2 (by decide)).1 1 1, by decide⟩

theorem strOrDefault_falsy (o : Option String) (d : String)
    (h : o = none ∨ o = some "") : strOrDefault o d = d := by
  rcases h with h | h <;> rw [h] <;> simp [strOrDefault]

theorem strOrDefault_truthy (o : Option String) (d v : String)
    (h : o = some v) (hv : ¬ v = "") : strOrDefault o d = v := by
  rw [h]
  simp [strOrDefault, hv]

theorem formatMultipliersV1_read (settings : List (String × String)) (r : ℕ)
    (hr1 : 1 ≤ r) (hr4 : r ≤ 4) :
    formatMultipliersV1 settings r
      = parseFloat (strOrDefault (lookupSetting settings (multKeyStr r)) (defaultStrV1 r)) := by
  interval_cases r <;> rfl

theorem formatMultipliersV2_read (settings : List (String × String)) (r : ℕ)
    (hr1 : 1 ≤ r) (hr4 : r ≤ 4) :
    formatMultipliersV2 settings r
      = parseFloat (strOrDefault (lookupSetting settings (multKeyStr r)) (defaultStrV2 r)) := by
  interval_cases r <;> rfl

theorem parse_defaultV1 (r : ℕ) (hr1 : 1 ≤ r) (hr4 : r ≤ 4) :
    parseFloat (defaultStrV1 r) = JSVal.num (defaultMultV1 r) := by
  interval_cases r <;> decide

theorem parse_defaultV2 (r : ℕ) (hr1 : 1 ≤ r) (hr4 : r ≤ 4) :
    parseFloat (defaultStrV2 r) = JSVal.num (defaultMultV2 r) := by
  interval_cases r <;> decide

/-- C6 counterexample: the claim says an unparsable or non-positive
configured value falls back to the rank's default. In the code, the
configured string "0" yields the number 0 (not 2.5), a negative value is
kept, and an unparsable value yields NaN — only a missing value or the
empty string yields the default. -/
theorem C6_counterexample :
    formatMultipliersV1 [(("multiplier_rank_1"), ("0"))] 1 = JSVal.num 0 ∧
    JSVal.num 0 ≠ JSVal.num (5/2) ∧
    formatMultipliersV1 [(("multiplier_rank_1"), ("abc"))] 1 = JSVal.nan ∧
    formatMultipliersV1 [(("multiplier_rank_1"), ("-2"))] 1 = JSVal.num (-2) := by
  decide

/-- C6 (amended): for every settings map and rank 1-4, both formatMultipliers
parse the configured string with the rank's default string substituted only
when the value is missing or empty; in that case the result is the rank's
fixed default number (which differs between the two implementations), and
otherwise it is parseFloat of the configured value, whatever that yields. -/
theorem C6_amended (settings : List (String × String)) (r : ℕ)
    (hr1 : 1 ≤ r) (hr4 : r ≤ 4) :
    formatMultipliersV1 settings r
      = parseFloat (strOrDefault (lookupSetting settings (multKeyStr r)) (defaultStrV1 r)) ∧
    formatMultipliersV2 settings r
      = parseFloat (strOrDefault (lookupSetting settings (multKeyStr r)) (defaultStrV2 r)) ∧
    ((lookupSetting settings (multKeyStr r) = none ∨
      lookupSetting settings (multKeyStr r) = some "") →
      formatMultipliersV1 settings r = JSVal.num (defaultMultV1 r) ∧
      formatMultipliersV2 settings r = JSVal.num (defaultMultV2 r)) ∧
    (∀ v, lookupSetting settings (multKeyStr r) = some v → ¬ v = "" →
      formatMultipliersV1 settings r = parseFloat v ∧
      formatMultipliersV2 settings r = parseFloat v) := by
  have e1 := formatMultipliersV1_read settings r hr1 hr4
  have e2 := formatMultipliersV2_read settings r hr1 hr4
  refine ⟨e1, e2, fun h => ⟨?_, ?_⟩, fun v hv hne => ⟨?_, ?_⟩⟩
  · rw [e1, strOrDefault_falsy _ _ h, parse_defaultV1 r hr1 hr4]
  · rw [e2, strOrDefault_falsy _ _ h, parse_defaultV2 r hr1 hr4]
  · rw [e1, strOrDefault_truthy _ _ v hv hne]
  · rw [e2, strOrDefault_truthy _ _ v hv hne]

/-- Witness for C6 on the empty settings map at rank 1. -/
theorem C6_witness :
    (formatMultipliersV1 [] 1 = JSVal.num (defaultMultV1 1) ∧
     formatMultipliersV2 [] 1 = JSVal.num (defaultMultV2 1)) ∧
    defaultMultV1 1 = 5/2 ∧ defaultMultV2 1 = 2 :=
  ⟨(C6_amended [] 1 (by decide) (by decide)).2.2.1 (Or.inl (by decide)),
   by decide, by decide⟩

end DragRace
